import Mathlib

/-!
Verification of the text-cleaning pipeline of `src/main.py` (Docling Folder
Converter).  The pipeline is a pure string-to-string transformation; we embed
it shallowly over `List Char`, mirroring the Python code:

* `cut_intro_sections`  — newline normalization, intro cut at the first
  non-exempt bold header, and removal of blocked sections (main.py 15-72);
* `cut_off_after_standby` — truncation at the first occurrence of the loose
  standby pattern (main.py 75-81);
* `split_into_chunks`   — re-split at every position where the bold-header
  lookahead pattern matches, trim, drop empties (main.py 84-87);
* `clean_text_pipeline` — the sequential composition (main.py 90-95).

Regex matching is embedded by specialised backtracking matchers that follow
Python `re` semantics (leftmost match, greedy `\s*`/`:?`, lazy `+?`) for the
three concrete patterns appearing in the source.
-/

set_option maxRecDepth 10000

abbrev Str := List Char

/-- Whitespace test matching Python `\s` and `str.strip` on the ASCII range:
space, tab, newline, carriage return, vertical tab, form feed. -/
def isWs (c : Char) : Bool :=
  c == ' ' || c == '\t' || c == '\n' || c == '\r' || c.toNat == 11 || c.toNat == 12

/-- Length of the leading whitespace run (capacity of a greedy `\s*`). -/
def wsCount (cs : Str) : Nat := (cs.takeWhile isWs).length

/-- Characters allowed in the header title group `[^\n*]`. -/
def isTitleChar (c : Char) : Bool := !(c == '\n' || c == '*')

/-- Length of the leading `[^\n*]` run. -/
def titleCharCount (cs : Str) : Nat := (cs.takeWhile isTitleChar).length

/-- Length of the leading `[^*]` run. -/
def nonStarCount (cs : Str) : Nat := (cs.takeWhile (fun c => !(c == '*'))).length

/-- Python `str.lstrip()`. -/
def lstrip (cs : Str) : Str := cs.dropWhile isWs

/-- Python `str.rstrip()`, written structurally. -/
def rstrip : Str → Str
  | [] => []
  | c :: r => if (rstrip r).isEmpty && isWs c then [] else c :: rstrip r

/-- Python `str.strip()`. -/
def strip (cs : Str) : Str := rstrip (lstrip cs)

/-- Python `text.replace("\r\n", "\n")`: non-overlapping left-to-right
replacement of each CRLF pair by a single LF. -/
def replaceCRLF : Str → Str
  | [] => []
  | [c] => [c]
  | a :: b :: r =>
    if a == '\r' && b == '\n' then '\n' :: replaceCRLF r
    else a :: replaceCRLF (b :: r)

/-- Python `text.replace("\r", "\n")`. -/
def replaceCR (cs : Str) : Str := cs.map (fun c => if c == '\r' then '\n' else c)

/-- The newline normalization of main.py line 22:
`text.replace("\r\n", "\n").replace("\r", "\n")`. -/
def normalizeNewlines (cs : Str) : Str := replaceCR (replaceCRLF cs)

/-- Options tried for the greedy `:?` (colon first when present). -/
def colonOpts : Str → List Nat
  | ':' :: _ => [1, 0]
  | _ => [0]

/-- Anchored match of `header_pat = r"\*\*\s*([^\n*]+?)\s*:?\s*\*\*"` at the
head of `cs`, following Python backtracking order: each greedy `\s*` tries
longest first, the lazy `([^\n*]+?)` tries shortest first, `:?` tries the
colon first.  Returns the captured group and the total match length. -/
def headerMatchAt (cs : Str) : Option (Str × Nat) :=
  match cs with
  | a :: b :: u =>
    if a == '*' && b == '*' then
      (List.range (wsCount u + 1)).reverse.findSome? (fun w1 =>
        let u1 := u.drop w1
        ((List.range (titleCharCount u1)).map (· + 1)).findSome? (fun g =>
          let u2 := u1.drop g
          (List.range (wsCount u2 + 1)).reverse.findSome? (fun w2 =>
            let u3 := u2.drop w2
            (colonOpts u3).findSome? (fun col =>
              let u4 := u3.drop col
              (List.range (wsCount u4 + 1)).reverse.findSome? (fun w3 =>
                match u4.drop w3 with
                | c :: d :: _ =>
                  if c == '*' && d == '*' then
                    some (u1.take g, w1 + g + w2 + col + w3 + 4)
                  else none
                | _ => none)))))
    else none
  | _ => none

/-- One header occurrence as produced by `finditer`: start offset, captured
title group, and match length. -/
structure Hdr where
  start : Nat
  title : Str
  hlen : Nat
deriving DecidableEq

/-- Scan of `header_pat.finditer(t)`: leftmost matches, continuing after the
end of each match (non-overlapping).  Fuel is the remaining length; every
match has positive length, so fuel never runs out early. -/
def findHeadersAux : Nat → Str → Nat → List Hdr
  | 0, _, _ => []
  | _ + 1, [], _ => []
  | fuel + 1, c :: r, i =>
    match headerMatchAt (c :: r) with
    | some (g, len) =>
      { start := i, title := g, hlen := len } :: findHeadersAux fuel ((c :: r).drop len) (i + len)
    | none => findHeadersAux fuel r (i + 1)

/-- All matches of `header_pat` in `t`, in document order. -/
def findHeaders (t : Str) : List Hdr := findHeadersAux t.length t 0

/-- Python `m.group(1).strip().lower() in {"to", "from", "date", "subject"}`. -/
def exemptTitle (g : Str) : Bool :=
  let ti := (strip g).map Char.toLower
  ti == "to".data || ti == "from".data || ti == "date".data || ti == "subject".data

/-- Start offset of the first header whose title is not exempt (the Python
`for m in header_pat.finditer(t): ... break` loop, main.py 28-33). -/
def firstRealStart (t : Str) : Option Nat :=
  ((findHeaders t).find? (fun h => !exemptTitle h.title)).map Hdr.start

/-- STEP 1 of `cut_intro_sections` (main.py 28-36): cut everything before the
first non-exempt header, then `lstrip`. -/
def introCutStep (t : Str) : Str :=
  match firstRealStart t with
  | some i => lstrip (t.drop i)
  | none => t

/-- Lower-case alphanumeric test for the class `[a-z0-9]`. -/
def isAlnumLower (c : Char) : Bool :=
  ('a' ≤ c && c ≤ 'z') || ('0' ≤ c && c ≤ '9')

/-- Python `re.sub(r"[^a-z0-9]+", " ", s)`: every maximal run of characters
outside `[a-z0-9]` becomes a single space.  The flag records whether we are
inside a run whose space was already emitted. -/
def collapseAux : Bool → Str → Str
  | _, [] => []
  | inRun, c :: r =>
    if isAlnumLower c then c :: collapseAux false r
    else if inRun then collapseAux true r
    else ' ' :: collapseAux true r

/-- Normalized title of main.py line 61:
`re.sub(r"[^a-z0-9]+", " ", m.group(1).strip().lower()).strip()`. -/
def normTitle (g : Str) : Str :=
  strip (collapseAux false ((strip g).map Char.toLower))

/-- The `unwanted_keywords` list of main.py 39-52, verbatim. -/
def unwanted_keywords : List Str :=
  ["weekly personnel".data, "personnel".data, "meeting".data, "training".data,
   "safety".data, "compliance".data, "kudos".data, "webinar".data,
   "standby".data, "automation standby".data, "automation overtime".data,
   "six months goals".data]

/-- Python substring containment `needle in hay`. -/
def isSubstr (nd : Str) : Str → Bool
  | [] => nd.isEmpty
  | c :: r => (nd.isPrefixOf (c :: r)) || isSubstr nd r

/-- Python `any(kw in title_norm for kw in unwanted_keywords)`. -/
def blockedTitle (g : Str) : Bool :=
  unwanted_keywords.any (fun kw => isSubstr kw (normTitle g))

/-- The block-collecting loop of main.py 58-69: each header owns the span
from its start to the next header's start (or end of text); blocked blocks
are skipped. -/
def filterBlocks (t : Str) : List Hdr → List Str
  | [] => []
  | m :: rest =>
    let bend := match rest with | m2 :: _ => m2.start | [] => t.length
    let block := (t.take bend).drop m.start
    if blockedTitle m.title then filterBlocks t rest
    else block :: filterBlocks t rest

/-- STEP 2 of `cut_intro_sections` (main.py 54-72): if there are no headers
return `t.lstrip()`, else join the kept blocks and `lstrip`. -/
def sectionFilterStep (t : Str) : Str :=
  if (findHeaders t).isEmpty then lstrip t
  else lstrip ((filterBlocks t (findHeaders t)).flatten)

/-- The whole `cut_intro_sections` (main.py 15-72): newline normalization,
intro cut, then blocked-section removal, in source order. -/
def cut_intro_sections (s : Str) : Str :=
  sectionFilterStep (introCutStep (normalizeNewlines s))

/-- Case-insensitive prefix test: `nd` is lowercase, the text is lowered
character by character. -/
def beginsWithCI : Str → Str → Bool
  | [], _ => true
  | _ :: _, [] => false
  | a :: as, b :: bs => (Char.toLower b == a) && beginsWithCI as bs

/-- Anchored match test of
`cutoff_pat = r"\*\*\s*(automation\s+)?standby\s*:?[\s*]*"` (IGNORECASE) at
the head of `cs`.  The trailing `\s*:?[\s*]*` is entirely optional, so a
match exists as soon as `standby` is consumed. -/
def standbyMatchAt (cs : Str) : Bool :=
  match cs with
  | a :: b :: u =>
    if a == '*' && b == '*' then
      let u1 := u.drop (wsCount u)
      (beginsWithCI "automation".data u1 &&
        (let u2 := u1.drop 10
         decide (0 < wsCount u2) &&
           beginsWithCI "standby".data (u2.drop (wsCount u2)))) ||
      beginsWithCI "standby".data u1
    else false
  | _ => false

/-- First position (from `i`) at which `pred` matches, the scan of
`re.search`. -/
def firstMatchFrom (pred : Str → Bool) : Str → Nat → Option Nat
  | [], i => if pred [] then some i else none
  | c :: r, i => if pred (c :: r) then some i else firstMatchFrom pred r (i + 1)

/-- `cutoff_pat.search(markdown_text)` start offset. -/
def standbyFind (cs : Str) : Option Nat := firstMatchFrom standbyMatchAt cs 0

/-- `cut_off_after_standby` (main.py 75-81). -/
def cut_off_after_standby (s : Str) : Str :=
  match standbyFind s with
  | some i => rstrip (s.take i)
  | none => s

/-- Anchored match test of the lookahead body `\*\*[^*]+?\*\*` at the head
of `cs`: two asterisks, a nonempty run of non-asterisks, two asterisks. -/
def chunkMatchAt (cs : Str) : Bool :=
  match cs with
  | a :: b :: u =>
    (a == '*' && b == '*') &&
    (decide (0 < nonStarCount u) &&
      (match u.drop (nonStarCount u) with
       | c :: d :: _ => c == '*' && d == '*'
       | _ => false))
  | _ => false

/-- All positions (from `i`) where the lookahead matches; these are the
split points of `re.split(r"(?=\*\*[^*]+?\*\*)", text)`. -/
def splitPointsAux : Str → Nat → List Nat
  | [], _ => []
  | c :: r, i =>
    if chunkMatchAt (c :: r) then i :: splitPointsAux r (i + 1)
    else splitPointsAux r (i + 1)

/-- Split points of the chunk pattern in `cs`. -/
def splitPoints (cs : Str) : List Nat := splitPointsAux cs 0

/-- Fragments of `cs` between consecutive split points: the fragment before
the first point, then one fragment per point up to the next point (or the
end). -/
def fragsAux (cs : Str) : List Nat → Nat → List Str
  | [], prev => [cs.drop prev]
  | p :: ps, prev => ((cs.take p).drop prev) :: fragsAux cs ps p

/-- `split_into_chunks` (main.py 84-87): split at the lookahead positions,
strip each part, drop empty parts. -/
def split_into_chunks (u : Str) : List Str :=
  ((fragsAux u (splitPoints u) 0).map strip).filter (fun c => !c.isEmpty)

/-- Python `"\n\n".join(chunks)`. -/
def joinWithBlank : List Str → Str
  | [] => []
  | [c] => c
  | c :: c2 :: rest => c ++ '\n' :: '\n' :: joinWithBlank (c2 :: rest)

/-- The Chunk Splitter/Joiner as one string transformer (split, trim, drop
empties, rejoin with a blank line). -/
def joinChunksStep (u : Str) : Str := joinWithBlank (split_into_chunks u)

/-- `clean_text_pipeline` (main.py 90-95), exactly the source's sequence. -/
def clean_text_pipeline (s : Str) : Str :=
  joinChunksStep (cut_off_after_standby (cut_intro_sections s))

/-- Modelled from the spec: the pipeline as §4.5 of the spec orders it —
Intro Cutter, then Tail Cutter, then Section Filter, then Chunk
Splitter/Joiner — built from the same step functions as the code. -/
def specOrderPipeline (s : Str) : Str :=
  joinChunksStep (sectionFilterStep (cut_off_after_standby (introCutStep (normalizeNewlines s))))

/-- All whitespace removed; used to state that a transformation only moves
whitespace around. -/
def removeWs (cs : Str) : Str := cs.filter (fun c => !isWs c)

/-- Whether the text contains two consecutive asterisks anywhere. -/
def hasDoubleStar : Str → Bool
  | [] => false
  | [_] => false
  | a :: b :: r => (a == '*' && b == '*') || hasDoubleStar (b :: r)

/-- Declarative section table for a given header list: each header paired
with its block span. -/
def headerBlocks (t : Str) : List Hdr → List (Str × Str)
  | [] => []
  | m :: rest =>
    (m.title, (t.take (match rest with | m2 :: _ => m2.start | [] => t.length)).drop m.start)
      :: headerBlocks t rest

/-! ## Basic lemmas about the trimming functions -/

theorem rstrip_sublist (x : Str) : (rstrip x).Sublist x := by
  induction x with
  | nil => simp [rstrip]
  | cons c r ih =>
    simp only [rstrip]
    by_cases h : (rstrip r).isEmpty && isWs c
    · simp [h]
    · simp only [h, if_false]
      exact ih.cons₂ c

theorem lstrip_sublist (x : Str) : (lstrip x).Sublist x := List.dropWhile_sublist isWs

theorem strip_sublist (x : Str) : (strip x).Sublist x :=
  (rstrip_sublist (lstrip x)).trans (lstrip_sublist x)

theorem rstrip_take (x : Str) : ∃ k, rstrip x = x.take k := by
  induction x with
  | nil => exact ⟨0, rfl⟩
  | cons c r ih =>
    obtain ⟨k, hk⟩ := ih
    by_cases h : ((rstrip r).isEmpty && isWs c) = true
    · exact ⟨0, by simp [rstrip, h]⟩
    · refine ⟨k + 1, ?_⟩
      show (if ((rstrip r).isEmpty && isWs c) = true then [] else c :: rstrip r) = _
      rw [if_neg h, hk, List.take_succ_cons]

theorem removeWs_lstrip (x : Str) : removeWs (lstrip x) = removeWs x := by
  induction x with
  | nil => rfl
  | cons c r ih =>
    simp only [lstrip, List.dropWhile_cons]
    by_cases h : isWs c
    · simpa [removeWs, h] using ih
    · simp [removeWs, h]

theorem removeWs_rstrip (x : Str) : removeWs (rstrip x) = removeWs x := by
  induction x with
  | nil => rfl
  | cons c r ih =>
    by_cases h : ((rstrip r).isEmpty && isWs c) = true
    · have h1 : (rstrip r).isEmpty = true := by
        cases h1 : (rstrip r).isEmpty
        · rw [h1] at h; simp at h
        · rfl
      have h2 : isWs c = true := by
        cases h2 : isWs c
        · rw [h2] at h; simp at h
        · rfl
      have hr : removeWs r = [] := by
        rw [← ih, List.isEmpty_iff.mp h1]; rfl
      have hc : rstrip (c :: r) = [] := by simp [rstrip, h]
      rw [hc]
      show ([] : Str) = removeWs (c :: r)
      rw [show removeWs (c :: r) = removeWs r from by simp [removeWs, List.filter_cons, h2]]
      exact hr.symm
    · have hc : rstrip (c :: r) = c :: rstrip r := by
        show (if ((rstrip r).isEmpty && isWs c) = true then [] else c :: rstrip r) = _
        rw [if_neg h]
      rw [hc]
      simp only [removeWs, List.filter_cons]
      cases hw : !isWs c
      · simpa [hw, removeWs] using ih
      · simpa [hw, removeWs] using ih

theorem removeWs_strip (x : Str) : removeWs (strip x) = removeWs x := by
  rw [strip, removeWs_rstrip, removeWs_lstrip]

theorem removeWs_of_strip_nil (x : Str) (h : strip x = []) : removeWs x = [] := by
  rw [← removeWs_strip, h]; rfl

theorem lstrip_idem (x : Str) : lstrip (lstrip x) = lstrip x := by
  induction x with
  | nil => rfl
  | cons c r ih =>
    simp only [lstrip, List.dropWhile_cons]
    by_cases h : isWs c
    · simpa [lstrip, h] using ih
    · simp [h]

theorem lstrip_eq_self_head (x : Str) (h : lstrip x = x) :
    x = [] ∨ ∃ a t, x = a :: t ∧ isWs a = false := by
  cases x with
  | nil => exact Or.inl rfl
  | cons a t =>
    refine Or.inr ⟨a, t, rfl, ?_⟩
    by_contra hws
    have hw : isWs a = true := by
      cases hx : isWs a
      · exact absurd hx hws
      · rfl
    have heq := h
    simp only [lstrip, List.dropWhile_cons, hw, if_true] at heq
    have hlen := congrArg List.length heq
    rw [List.length_cons] at hlen
    have hle : (List.dropWhile isWs t).length ≤ t.length := (List.dropWhile_sublist isWs).length_le
    omega

theorem lstrip_cons_of_not_ws (a : Char) (t : Str) (h : isWs a = false) :
    lstrip (a :: t) = a :: t := by
  simp [lstrip, List.dropWhile_cons, h]

theorem lstrip_rstrip_of_lstrip (y : Str) (h : lstrip y = y) :
    lstrip (rstrip y) = rstrip y := by
  rcases lstrip_eq_self_head y h with h0 | ⟨a, t, rfl, ha⟩
  · subst h0; rfl
  · simp only [rstrip, ha, Bool.and_false, if_false]
    exact lstrip_cons_of_not_ws a (rstrip t) ha

theorem rstrip_idem (x : Str) : rstrip (rstrip x) = rstrip x := by
  induction x with
  | nil => rfl
  | cons c r ih =>
    by_cases h : ((rstrip r).isEmpty && isWs c) = true
    · simp [rstrip, h]
    · have hni : ((rstrip r).isEmpty && isWs c) = false := by
        cases hh : ((rstrip r).isEmpty && isWs c)
        · rfl
        · exact absurd hh h
      have hc : rstrip (c :: r) = c :: rstrip r := by
        show (if ((rstrip r).isEmpty && isWs c) = true then [] else c :: rstrip r) = _
        rw [if_neg h]
      rw [hc]
      show (if ((rstrip (rstrip r)).isEmpty && isWs c) = true then [] else c :: rstrip (rstrip r))
          = c :: rstrip r
      rw [ih, if_neg h]

theorem lstrip_strip (x : Str) : lstrip (strip x) = strip x := by
  rw [strip]
  exact lstrip_rstrip_of_lstrip (lstrip x) (lstrip_idem x)

theorem rstrip_strip (x : Str) : rstrip (strip x) = strip x := by
  rw [strip, rstrip_idem]

theorem strip_strip (x : Str) : strip (strip x) = strip x := by
  conv_lhs => rw [strip, lstrip_strip, rstrip_strip]

theorem rstrip_append (x y : Str) :
    rstrip (x ++ y) = if (rstrip y).isEmpty then rstrip x else x ++ rstrip y := by
  induction x with
  | nil =>
    cases h : (rstrip y).isEmpty
    · simp
    · rw [List.nil_append, if_pos rfl, List.isEmpty_iff.mp h]; rfl
  | cons c r ih =>
    cases h : (rstrip y).isEmpty
    · have hry : rstrip (r ++ y) = r ++ rstrip y := by
        rw [ih, if_neg (by simp [h])]
      have hne : ((r ++ rstrip y).isEmpty && isWs c) = false := by
        cases hr : (r ++ rstrip y) with
        | nil =>
          rcases List.append_eq_nil.mp hr with ⟨_, h2⟩
          rw [h2] at h; simp at h
        | cons _ _ => simp [hr]
      rw [List.cons_append]
      show (if ((rstrip (r ++ y)).isEmpty && isWs c) = true then [] else c :: rstrip (r ++ y)) = _
      rw [hry, hne]
      simp
    · have hry : rstrip (r ++ y) = rstrip r := by rw [ih, if_pos h]
      rw [List.cons_append]
      show (if ((rstrip (r ++ y)).isEmpty && isWs c) = true then [] else c :: rstrip (r ++ y)) = _
      rw [hry]
      simp [rstrip]

/-! ## Scanner characterizations -/

theorem firstMatchFrom_some (pred : Str → Bool) :
    ∀ (cs : Str) (i j : Nat), firstMatchFrom pred cs i = some j →
      i ≤ j ∧ pred (cs.drop (j - i)) = true ∧ ∀ k, k < j - i → pred (cs.drop k) = false := by
  intro cs
  induction cs with
  | nil =>
    intro i j h
    by_cases hp : pred [] = true
    · simp only [firstMatchFrom, hp, if_pos rfl] at h
      cases h
      refine ⟨Nat.le_refl _, by simpa using hp, ?_⟩
      intro k hk
      omega
    · simp only [firstMatchFrom] at h
      rw [if_neg hp] at h
      cases h
  | cons c r ih =>
    intro i j h
    by_cases hp : pred (c :: r) = true
    · simp only [firstMatchFrom] at h
      rw [if_pos hp] at h
      cases h
      refine ⟨Nat.le_refl _, by simpa using hp, ?_⟩
      intro k hk
      omega
    · simp only [firstMatchFrom] at h
      rw [if_neg hp] at h
      obtain ⟨h1, h2, h3⟩ := ih (i + 1) j h
      refine ⟨by omega, ?_, ?_⟩
      · have hd : (c :: r).drop (j - i) = r.drop (j - (i + 1)) := by
          have hj : j - i = (j - (i + 1)) + 1 := by omega
          rw [hj, List.drop_succ_cons]
        rw [hd]
        exact h2
      · intro k hk
        cases k with
        | zero => simpa using hp
        | succ k2 =>
          rw [List.drop_succ_cons]
          have : k2 < j - (i + 1) := by omega
          exact h3 k2 this

theorem firstMatchFrom_none (pred : Str → Bool) :
    ∀ (cs : Str) (i : Nat), firstMatchFrom pred cs i = none →
      ∀ k, pred (cs.drop k) = false := by
  intro cs
  induction cs with
  | nil =>
    intro i h k
    simp only [firstMatchFrom] at h
    by_cases hp : pred [] = true
    · rw [if_pos hp] at h; cases h
    · simpa [List.drop_nil] using by
        cases hh : pred []
        · rfl
        · exact absurd hh hp
  | cons c r ih =>
    intro i h k
    simp only [firstMatchFrom] at h
    by_cases hp : pred (c :: r) = true
    · rw [if_pos hp] at h; cases h
    · rw [if_neg hp] at h
      cases k with
      | zero =>
        simp only [List.drop_zero]
        cases hh : pred (c :: r)
        · rfl
        · exact absurd hh hp
      | succ k2 =>
        rw [List.drop_succ_cons]
        exact ih (i + 1) h k2

theorem find?_split {α : Type} (p : α → Bool) :
    ∀ (l : List α) (a : α), l.find? p = some a →
      p a = true ∧ ∃ l1 l2, l = l1 ++ a :: l2 ∧ ∀ x ∈ l1, p x = false := by
  intro l
  induction l with
  | nil => intro a h; cases h
  | cons c r ih =>
    intro a h
    by_cases hp : p c = true
    · rw [List.find?_cons_of_pos _ hp] at h
      cases h
      exact ⟨hp, [], r, rfl, by intro x hx; cases hx⟩
    · rw [List.find?_cons_of_neg _ hp] at h
      obtain ⟨h1, l1, l2, hsplit, hall⟩ := ih a h
      refine ⟨h1, c :: l1, l2, by rw [hsplit]; rfl, ?_⟩
      intro x hx
      rcases List.mem_cons.mp hx with rfl | hx2
      · cases hh : p x
        · rfl
        · exact absurd hh hp
      · exact hall x hx2

/-! ## Split points and fragments -/

theorem splitPointsAux_bounds :
    ∀ (cs : Str) (i : Nat),
      (∀ p ∈ splitPointsAux cs i, i ≤ p ∧ p < i + cs.length) := by
  intro cs
  induction cs with
  | nil => intro i p hp; cases hp
  | cons c r ih =>
    intro i p hp
    simp only [splitPointsAux] at hp
    by_cases h : chunkMatchAt (c :: r) = true
    · rw [if_pos h] at hp
      rcases List.mem_cons.mp hp with rfl | hp2
      · simp only [List.length_cons]; omega
      · have := ih (i + 1) p hp2
        simp only [List.length_cons]
        omega
    · rw [if_neg h] at hp
      have := ih (i + 1) p hp
      simp only [List.length_cons]
      omega

theorem splitPointsAux_pairwise :
    ∀ (cs : Str) (i : Nat), (splitPointsAux cs i).Pairwise (· < ·) := by
  intro cs
  induction cs with
  | nil => intro i; exact List.Pairwise.nil
  | cons c r ih =>
    intro i
    simp only [splitPointsAux]
    by_cases h : chunkMatchAt (c :: r) = true
    · rw [if_pos h]
      refine List.Pairwise.cons ?_ (ih (i + 1))
      intro p hp
      have := splitPointsAux_bounds r (i + 1) p hp
      omega
    · rw [if_neg h]
      exact ih (i + 1)

theorem drop_eq_drop_take_append (cs : Str) (prev p : Nat)
    (h1 : prev ≤ p) (h2 : prev ≤ cs.length) :
    cs.drop prev = (cs.take p).drop prev ++ cs.drop p := by
  conv_lhs => rw [← List.take_append_drop p cs]
  rw [List.drop_append_eq_append_drop]
  have hlen : prev - (cs.take p).length = 0 := by
    rw [List.length_take]
    omega
  rw [hlen, List.drop_zero]

theorem fragsAux_flatten :
    ∀ (ps : List Nat) (cs : Str) (prev : Nat),
      (∀ p ∈ ps, p ≤ cs.length) → ps.Pairwise (· ≤ ·) →
      (∀ p ∈ ps, prev ≤ p) → prev ≤ cs.length →
      (fragsAux cs ps prev).flatten = cs.drop prev := by
  intro ps
  induction ps with
  | nil =>
    intro cs prev _ _ _ _
    simp [fragsAux]
  | cons p ps2 ih =>
    intro cs prev hbound hpair hprev hplen
    have hple : p ≤ cs.length := hbound p (List.mem_cons_self p ps2)
    have hprevp : prev ≤ p := hprev p (List.mem_cons_self p ps2)
    have hrest : (fragsAux cs ps2 p).flatten = cs.drop p := by
      refine ih cs p (fun q hq => hbound q (List.mem_cons_of_mem _ hq)) hpair.of_cons
        (fun q hq => ?_) hple
      exact List.rel_of_pairwise_cons hpair hq
    simp only [fragsAux, List.flatten_cons, hrest]
    exact (drop_eq_drop_take_append cs prev p hprevp hplen).symm

/-! ## removeWs and joining -/

theorem removeWs_append (x y : Str) : removeWs (x ++ y) = removeWs x ++ removeWs y := by
  simp [removeWs]

theorem removeWs_blank : removeWs ['\n', '\n'] = [] := by decide

theorem removeWs_joinWithBlank :
    ∀ LS : List Str, removeWs (joinWithBlank LS) = (LS.map removeWs).flatten := by
  intro LS
  induction LS with
  | nil => rfl
  | cons c rest ih =>
    cases rest with
    | nil => simp [joinWithBlank, removeWs]
    | cons c2 t =>
      show removeWs (c ++ '\n' :: '\n' :: joinWithBlank (c2 :: t)) = _
      rw [removeWs_append]
      have : removeWs ('\n' :: '\n' :: joinWithBlank (c2 :: t))
          = removeWs (joinWithBlank (c2 :: t)) := by
        simp [removeWs, List.filter_cons, isWs]
      rw [this, ih]
      simp

theorem removeWs_chunks_flatten :
    ∀ frags : List Str,
      (((frags.map strip).filter (fun c => !c.isEmpty)).map removeWs).flatten
        = (frags.map removeWs).flatten := by
  intro frags
  induction frags with
  | nil => rfl
  | cons f rest ih =>
    simp only [List.map_cons, List.filter_cons]
    by_cases h : (!(strip f).isEmpty) = true
    · rw [if_pos h]
      simp only [List.map_cons, List.flatten_cons, ih, removeWs_strip]
    · rw [if_neg h]
      have hemp : strip f = [] := by
        cases hh : (strip f).isEmpty
        · rw [hh] at h; simp at h
        · exact List.isEmpty_iff.mp hh
      have : removeWs f = [] := removeWs_of_strip_nil f hemp
      simp only [List.flatten_cons, ih, this, List.nil_append]

theorem removeWs_flatten :
    ∀ LS : List Str, removeWs LS.flatten = (LS.map removeWs).flatten := by
  intro LS
  induction LS with
  | nil => rfl
  | cons c rest ih => simp only [List.flatten_cons, removeWs_append, ih, List.map_cons]

/-- The Chunk Splitter/Joiner only rearranges whitespace: the non-whitespace
content is exactly that of its input. -/
theorem removeWs_joinChunksStep (u : Str) : removeWs (joinChunksStep u) = removeWs u := by
  rw [joinChunksStep, removeWs_joinWithBlank, split_into_chunks, removeWs_chunks_flatten]
  rw [← removeWs_flatten]
  have hfrag : (fragsAux u (splitPoints u) 0).flatten = u.drop 0 := by
    refine fragsAux_flatten (splitPoints u) u 0 ?_ ?_ ?_ ?_
    · intro p hp
      have := splitPointsAux_bounds u 0 p hp
      omega
    · exact (splitPointsAux_pairwise u 0).imp (fun h => Nat.le_of_lt h)
    · intro p hp; omega
    · omega
  rw [hfrag, List.drop_zero]

/-! ## Consequences of having no pair of adjacent asterisks -/

theorem double_star_parts (a b : Char) (u : Str) (h : hasDoubleStar (a :: b :: u) = false) :
    ((a == '*' && b == '*') = false) ∧ hasDoubleStar (b :: u) = false := by
  have h2 : ((a == '*' && b == '*') || hasDoubleStar (b :: u)) = false := h
  constructor
  · cases hx : (a == '*' && b == '*')
    · rfl
    · rw [hx] at h2; simp at h2
  · cases hx : hasDoubleStar (b :: u)
    · rfl
    · rw [hx] at h2; simp at h2

theorem hasDoubleStar_tail (c : Char) (r : Str) (h : hasDoubleStar (c :: r) = false) :
    hasDoubleStar r = false := by
  cases r with
  | nil => rfl
  | cons b u => exact (double_star_parts c b u h).2

theorem headerMatchAt_none (cs : Str) (h : hasDoubleStar cs = false) :
    headerMatchAt cs = none := by
  match cs with
  | [] => rfl
  | [a] => rfl
  | a :: b :: u =>
    have hab := (double_star_parts a b u h).1
    simp only [headerMatchAt, hab]
    rfl

theorem standbyMatchAt_none (cs : Str) (h : hasDoubleStar cs = false) :
    standbyMatchAt cs = false := by
  match cs with
  | [] => rfl
  | [a] => rfl
  | a :: b :: u =>
    have hab := (double_star_parts a b u h).1
    simp only [standbyMatchAt, hab]
    rfl

theorem chunkMatchAt_none (cs : Str) (h : hasDoubleStar cs = false) :
    chunkMatchAt cs = false := by
  match cs with
  | [] => rfl
  | [a] => rfl
  | a :: b :: u =>
    have hab := (double_star_parts a b u h).1
    simp only [chunkMatchAt, hab]
    rfl

theorem findHeadersAux_nil :
    ∀ (fuel : Nat) (cs : Str) (i : Nat), hasDoubleStar cs = false →
      findHeadersAux fuel cs i = [] := by
  intro fuel
  induction fuel with
  | zero => intro cs i _; rfl
  | succ f ih =>
    intro cs i h
    cases cs with
    | nil => rfl
    | cons c r =>
      simp only [findHeadersAux, headerMatchAt_none (c :: r) h]
      exact ih r (i + 1) (hasDoubleStar_tail c r h)

theorem firstMatchFrom_standby_nil :
    ∀ (cs : Str) (i : Nat), hasDoubleStar cs = false →
      firstMatchFrom standbyMatchAt cs i = none := by
  intro cs
  induction cs with
  | nil => intro i _; rfl
  | cons c r ih =>
    intro i h
    simp only [firstMatchFrom]
    rw [if_neg (by simp [standbyMatchAt_none (c :: r) h])]
    exact ih (i + 1) (hasDoubleStar_tail c r h)

theorem splitPointsAux_nil :
    ∀ (cs : Str) (i : Nat), hasDoubleStar cs = false → splitPointsAux cs i = [] := by
  intro cs
  induction cs with
  | nil => intro i _; rfl
  | cons c r ih =>
    intro i h
    simp only [splitPointsAux]
    rw [if_neg (by simp [chunkMatchAt_none (c :: r) h])]
    exact ih (i + 1) (hasDoubleStar_tail c r h)

theorem star_replaceCR (c : Char) :
    ((if c == '\r' then '\n' else c) == '*') = (c == '*') := by
  by_cases h : (c == '\r') = true
  · have hc : c = '\r' := eq_of_beq h
    subst hc
    decide
  · rw [if_neg h]

theorem hasDoubleStar_replaceCR :
    ∀ cs : Str, hasDoubleStar (replaceCR cs) = hasDoubleStar cs := by
  intro cs
  induction cs with
  | nil => rfl
  | cons a rest ih =>
    cases rest with
    | nil =>
      show hasDoubleStar [if a == '\r' then '\n' else a] = hasDoubleStar [a]
      rfl
    | cons b r =>
      have ih2 : hasDoubleStar (replaceCR (b :: r)) = hasDoubleStar (b :: r) := ih
      have hb : replaceCR (b :: r) = (if b == '\r' then '\n' else b) :: replaceCR r := rfl
      have ha : replaceCR (a :: b :: r)
          = (if a == '\r' then '\n' else a) :: (if b == '\r' then '\n' else b) :: replaceCR r :=
        rfl
      have e : ∀ (x y : Char) (z : Str),
          hasDoubleStar (x :: y :: z) = ((x == '*' && y == '*') || hasDoubleStar (y :: z)) :=
        fun _ _ _ => rfl
      rw [ha, e, e, star_replaceCR a, star_replaceCR b, ← hb, ih2]

theorem hasDoubleStar_cons_of (c : Char) (xs : Str)
    (hc : (c == '*') = false) (hxs : hasDoubleStar xs = false) :
    hasDoubleStar (c :: xs) = false := by
  cases xs with
  | nil => rfl
  | cons b r =>
    show ((c == '*' && b == '*') || hasDoubleStar (b :: r)) = false
    rw [hc, hxs]
    rfl

theorem replaceCRLF_head :
    ∀ (b : Char) (r : Str), (∃ xs, replaceCRLF (b :: r) = b :: xs) ∨
      (∃ xs, replaceCRLF (b :: r) = '\n' :: xs) := by
  intro b r
  cases r with
  | nil => exact Or.inl ⟨[], rfl⟩
  | cons d r2 =>
    by_cases h : (b == '\r' && d == '\n') = true
    · refine Or.inr ⟨replaceCRLF r2, ?_⟩
      show (if (b == '\r' && d == '\n') = true then '\n' :: replaceCRLF r2
          else b :: replaceCRLF (d :: r2)) = _
      rw [if_pos h]
    · refine Or.inl ⟨replaceCRLF (d :: r2), ?_⟩
      show (if (b == '\r' && d == '\n') = true then '\n' :: replaceCRLF r2
          else b :: replaceCRLF (d :: r2)) = _
      rw [if_neg h]

theorem newline_not_star : (('\n' : Char) == '*') = false := by decide

theorem hasDoubleStar_replaceCRLF :
    ∀ cs : Str, hasDoubleStar cs = false → hasDoubleStar (replaceCRLF cs) = false := by
  intro cs
  induction cs using replaceCRLF.induct with
  | case1 => intro _; rfl
  | case2 c => intro h; exact h
  | case3 a b r hab ih =>
    intro h
    have hred : replaceCRLF (a :: b :: r) = '\n' :: replaceCRLF r := by
      show (if (a == '\r' && b == '\n') = true then '\n' :: replaceCRLF r
          else a :: replaceCRLF (b :: r)) = _
      rw [if_pos hab]
    rw [hred]
    refine hasDoubleStar_cons_of '\n' _ newline_not_star ?_
    exact ih (hasDoubleStar_tail b r (hasDoubleStar_tail a (b :: r) h))
  | case4 a b r hab ih =>
    intro h
    have hred : replaceCRLF (a :: b :: r) = a :: replaceCRLF (b :: r) := by
      show (if (a == '\r' && b == '\n') = true then '\n' :: replaceCRLF r
          else a :: replaceCRLF (b :: r)) = _
      rw [if_neg hab]
    rw [hred]
    have hparts := double_star_parts a b r h
    have htail : hasDoubleStar (replaceCRLF (b :: r)) = false := ih hparts.2
    by_cases ha : (a == '*') = true
    · have hb : (b == '*') = false := by
        cases hx : (b == '*')
        · rfl
        · rw [ha, hx] at hparts; simp at hparts
      rcases replaceCRLF_head b r with ⟨xs, hx⟩ | ⟨xs, hx⟩
      · rw [hx]
        rw [hx] at htail
        show ((a == '*' && b == '*') || hasDoubleStar (b :: xs)) = false
        rw [hparts.1, htail]
        rfl
      · rw [hx]
        rw [hx] at htail
        show ((a == '*' && '\n' == '*') || hasDoubleStar ('\n' :: xs)) = false
        rw [newline_not_star, htail]
        simp
    · have ha2 : (a == '*') = false := by
        cases hx : (a == '*')
        · rfl
        · exact absurd hx ha
      exact hasDoubleStar_cons_of a _ ha2 htail

theorem hasDoubleStar_normalize (cs : Str) (h : hasDoubleStar cs = false) :
    hasDoubleStar (normalizeNewlines cs) = false := by
  rw [normalizeNewlines, hasDoubleStar_replaceCR]
  exact hasDoubleStar_replaceCRLF cs h

theorem hasDoubleStar_dropWhile (p : Char → Bool) :
    ∀ cs : Str, hasDoubleStar cs = false → hasDoubleStar (cs.dropWhile p) = false := by
  intro cs
  induction cs with
  | nil => intro h; exact h
  | cons c r ih =>
    intro h
    rw [List.dropWhile_cons]
    by_cases hp : p c = true
    · rw [if_pos hp]
      exact ih (hasDoubleStar_tail c r h)
    · rw [if_neg hp]
      exact h

theorem strip_lstrip (x : Str) : strip (lstrip x) = strip x := by
  rw [strip, strip, lstrip_idem]

/-! ## Membership: every stage only takes characters from its input
(plus the inserted blank separators) -/

theorem mem_lstrip {c : Char} {x : Str} (h : c ∈ lstrip x) : c ∈ x :=
  (lstrip_sublist x).subset h

theorem mem_rstrip {c : Char} {x : Str} (h : c ∈ rstrip x) : c ∈ x :=
  (rstrip_sublist x).subset h

theorem mem_strip {c : Char} {x : Str} (h : c ∈ strip x) : c ∈ x :=
  (strip_sublist x).subset h

theorem replaceCR_no_cr (c : Char) (x : Str) (h : c ∈ replaceCR x) : c ≠ '\r' := by
  rw [replaceCR] at h
  obtain ⟨d, _, hc⟩ := List.mem_map.mp h
  by_cases hd : (d == '\r') = true
  · rw [if_pos hd] at hc
    rw [← hc]
    decide
  · rw [if_neg hd] at hc
    rw [← hc]
    exact ne_of_beq_false (by cases hx : (d == '\r') with
      | true => exact absurd hx hd
      | false => rfl)

theorem normalize_no_cr (c : Char) (s : Str) (h : c ∈ normalizeNewlines s) : c ≠ '\r' :=
  replaceCR_no_cr c (replaceCRLF s) h

theorem mem_introCutStep {c : Char} {t : Str} (h : c ∈ introCutStep t) : c ∈ t := by
  unfold introCutStep at h
  split at h
  · exact List.drop_subset _ _ (mem_lstrip h)
  · exact h

theorem filterBlocks_shape (t : Str) :
    ∀ (ms : List Hdr) (b : Str), b ∈ filterBlocks t ms → ∃ j k, b = (t.take k).drop j := by
  intro ms
  induction ms with
  | nil => intro b hb; cases hb
  | cons m rest ih =>
    intro b hb
    simp only [filterBlocks] at hb
    split at hb
    · exact ih b hb
    · rcases List.mem_cons.mp hb with rfl | hb2
      · exact ⟨m.start, _, rfl⟩
      · exact ih b hb2

theorem mem_sectionFilterStep {c : Char} {t : Str} (h : c ∈ sectionFilterStep t) : c ∈ t := by
  unfold sectionFilterStep at h
  split at h
  · exact mem_lstrip h
  · have h2 := mem_lstrip h
    obtain ⟨b, hb, hcb⟩ := List.mem_flatten.mp h2
    obtain ⟨j, k, rfl⟩ := filterBlocks_shape t (findHeaders t) b hb
    exact List.take_subset _ _ (List.drop_subset _ _ hcb)

theorem mem_cut_intro {c : Char} {s : Str} (h : c ∈ cut_intro_sections s) :
    c ∈ normalizeNewlines s := by
  rw [cut_intro_sections] at h
  exact mem_introCutStep (mem_sectionFilterStep h)

theorem mem_cut_off {c : Char} {s : Str} (h : c ∈ cut_off_after_standby s) : c ∈ s := by
  unfold cut_off_after_standby at h
  split at h
  · exact List.take_subset _ _ (mem_rstrip h)
  · exact h

theorem fragsAux_subset :
    ∀ (ps : List Nat) (cs : Str) (prev : Nat) (b : Str), b ∈ fragsAux cs ps prev → b ⊆ cs := by
  intro ps
  induction ps with
  | nil =>
    intro cs prev b hb
    rcases List.mem_singleton.mp hb with rfl
    exact List.drop_subset _ _
  | cons p rest ih =>
    intro cs prev b hb
    rcases List.mem_cons.mp hb with rfl | hb2
    · intro c hc
      exact List.take_subset _ _ (List.drop_subset _ _ hc)
    · exact ih cs p b hb2

theorem mem_split_into_chunks {ch : Str} {u : Str} (h : ch ∈ split_into_chunks u) :
    ch ⊆ u := by
  rw [split_into_chunks] at h
  have h2 := List.mem_of_mem_filter h
  obtain ⟨f, hf, rfl⟩ := List.mem_map.mp h2
  intro c hc
  exact fragsAux_subset (splitPoints u) u 0 f hf (mem_strip hc)

theorem mem_joinWithBlank {c : Char} :
    ∀ LS : List Str, c ∈ joinWithBlank LS → (∃ l ∈ LS, c ∈ l) ∨ c = '\n' := by
  intro LS
  induction LS with
  | nil => intro h; cases h
  | cons x rest ih =>
    cases rest with
    | nil =>
      intro h
      exact Or.inl ⟨x, List.mem_cons_self x [], h⟩
    | cons x2 t =>
      intro h
      rcases List.mem_append.mp h with h1 | h2
      · exact Or.inl ⟨x, List.mem_cons_self _ _, h1⟩
      · rcases List.mem_cons.mp h2 with rfl | h3
        · exact Or.inr rfl
        · rcases List.mem_cons.mp h3 with rfl | h4
          · exact Or.inr rfl
          · rcases ih h4 with ⟨l, hl, hcl⟩ | hnl
            · exact Or.inl ⟨l, List.mem_cons_of_mem _ hl, hcl⟩
            · exact Or.inr hnl

theorem mem_clean_pipeline {c : Char} {s : Str} (h : c ∈ clean_text_pipeline s) :
    c ∈ normalizeNewlines s ∨ c = '\n' := by
  rw [clean_text_pipeline, joinChunksStep] at h
  rcases mem_joinWithBlank _ h with ⟨l, hl, hcl⟩ | hnl
  · exact Or.inl (mem_cut_intro (mem_cut_off (mem_split_into_chunks hl hcl)))
  · exact Or.inr hnl

/-! ## The pipeline output is trimmed -/

theorem isEmpty_false_of_ne_nil {x : Str} (h : x ≠ []) : x.isEmpty = false := by
  cases hx : x.isEmpty
  · rfl
  · exact absurd (List.isEmpty_iff.mp hx) h

theorem chunk_trimmed {ch : Str} {u : Str} (h : ch ∈ split_into_chunks u) :
    lstrip ch = ch ∧ rstrip ch = ch ∧ ch ≠ [] := by
  rw [split_into_chunks] at h
  have hne : (!ch.isEmpty) = true := (List.mem_filter.mp h).2
  have h2 := (List.mem_filter.mp h).1
  obtain ⟨f, _, rfl⟩ := List.mem_map.mp h2
  refine ⟨lstrip_strip f, rstrip_strip f, ?_⟩
  intro hnil
  rw [hnil] at hne
  simp at hne

theorem joinWithBlank_ne_nil :
    ∀ LS : List Str, (∀ l ∈ LS, l ≠ []) → LS ≠ [] → joinWithBlank LS ≠ [] := by
  intro LS
  induction LS with
  | nil => intro _ h; exact absurd rfl h
  | cons x rest _ =>
    cases rest with
    | nil =>
      intro hall _
      exact hall x (List.mem_cons_self _ _)
    | cons x2 t =>
      intro hall _
      have hx : x ≠ [] := hall x (List.mem_cons_self _ _)
      cases x with
      | nil => exact absurd rfl hx
      | cons a as => simp [joinWithBlank]

theorem lstrip_joinWithBlank :
    ∀ LS : List Str, (∀ l ∈ LS, lstrip l = l ∧ l ≠ []) →
      lstrip (joinWithBlank LS) = joinWithBlank LS := by
  intro LS
  cases LS with
  | nil => intro _; rfl
  | cons x rest =>
    intro hall
    obtain ⟨hx1, hx2⟩ := hall x (List.mem_cons_self _ _)
    rcases lstrip_eq_self_head x hx1 with rfl | ⟨a, t2, rfl, ha⟩
    · exact absurd rfl hx2
    · cases rest with
      | nil => exact hx1
      | cons x2 t =>
        show lstrip ((a :: t2) ++ '\n' :: '\n' :: joinWithBlank (x2 :: t)) = _
        rw [List.cons_append]
        exact lstrip_cons_of_not_ws a _ ha

theorem rstrip_joinWithBlank :
    ∀ LS : List Str, (∀ l ∈ LS, rstrip l = l ∧ l ≠ []) →
      rstrip (joinWithBlank LS) = joinWithBlank LS := by
  intro LS
  induction LS with
  | nil => intro _; rfl
  | cons x rest ih =>
    intro hall
    cases rest with
    | nil => exact (hall x (List.mem_cons_self _ _)).1
    | cons x2 t =>
      have hJ : rstrip (joinWithBlank (x2 :: t)) = joinWithBlank (x2 :: t) :=
        ih (fun l hl => hall l (List.mem_cons_of_mem _ hl))
      have hJne : joinWithBlank (x2 :: t) ≠ [] :=
        joinWithBlank_ne_nil (x2 :: t) (fun l hl => (hall l (List.mem_cons_of_mem _ hl)).2)
          (by intro hc; cases hc)
      have hJe : (rstrip (joinWithBlank (x2 :: t))).isEmpty = false := by
        rw [hJ]; exact isEmpty_false_of_ne_nil hJne
      have hsep : rstrip ('\n' :: '\n' :: joinWithBlank (x2 :: t))
          = '\n' :: '\n' :: joinWithBlank (x2 :: t) := by
        have happ := rstrip_append ['\n', '\n'] (joinWithBlank (x2 :: t))
        have hconv : (['\n', '\n'] : Str) ++ joinWithBlank (x2 :: t)
            = '\n' :: '\n' :: joinWithBlank (x2 :: t) := rfl
        rw [hconv] at happ
        rw [happ, if_neg (by rw [hJe]; intro hc; cases hc), hJ]
        exact hconv
      show rstrip (x ++ '\n' :: '\n' :: joinWithBlank (x2 :: t)) = _
      rw [rstrip_append, hsep, if_neg (by simp)]
      rfl

/-! ## Characterization of the section filter and pass-through helpers -/

theorem filterBlocks_eq (t : Str) :
    ∀ ms : List Hdr,
      filterBlocks t ms
        = ((headerBlocks t ms).filter (fun tb => !blockedTitle tb.1)).map Prod.snd := by
  intro ms
  induction ms with
  | nil => rfl
  | cons m rest ih =>
    by_cases hb : blockedTitle m.title = true
    · simp only [filterBlocks, headerBlocks, List.filter_cons, hb, ih]
      rfl
    · have hb2 : blockedTitle m.title = false := by
        cases hx : blockedTitle m.title
        · rfl
        · exact absurd hx hb
      simp only [filterBlocks, headerBlocks, List.filter_cons, hb2, ih]
      rfl

theorem filterBlocks_sublist (t : Str) (ms : List Hdr) :
    (filterBlocks t ms).Sublist ((headerBlocks t ms).map Prod.snd) := by
  rw [filterBlocks_eq]
  exact (List.filter_sublist _).map Prod.snd

theorem introCut_no_headers (t : Str) (h : findHeaders t = []) : introCutStep t = t := by
  unfold introCutStep firstRealStart
  rw [h]
  rfl

theorem sectionFilter_no_headers (t : Str) (h : findHeaders t = []) :
    sectionFilterStep t = lstrip t := by
  unfold sectionFilterStep
  rw [h]
  rfl

theorem cutoff_of_none (u : Str) (h : standbyFind u = none) :
    cut_off_after_standby u = u := by
  unfold cut_off_after_standby
  rw [h]

theorem cutoff_of_some (u : Str) (i : Nat) (h : standbyFind u = some i) :
    cut_off_after_standby u = rstrip (u.take i) := by
  unfold cut_off_after_standby
  rw [h]

theorem chunks_of_no_points (u : Str) (h : splitPoints u = []) :
    split_into_chunks u = if (strip u).isEmpty then [] else [strip u] := by
  rw [split_into_chunks, h]
  show (([(u.drop 0)].map strip).filter (fun c => !c.isEmpty)) = _
  rw [List.drop_zero]
  show List.filter (fun c => !c.isEmpty) [strip u] = _
  cases he : (strip u).isEmpty
  · rw [if_neg (by intro hc; cases hc)]
    simp [List.filter_cons, he]
  · rw [if_pos rfl]
    simp [List.filter_cons, he]

/-! ## Claim theorems -/

/-- C1 (counterexample): the full pipeline does NOT discard everything from
the first truncation marker onward.  On an input whose Standby marker is
followed by a section with a non-blocked title ("Conclusion"), that later
section (and its body "Bye.") survives to the output, because the section
filter runs before the tail cutter and removes the Standby header that the
tail cutter would have keyed on. -/
theorem c1_counterexample :
    isSubstr "Conclusion".data
        (clean_text_pipeline
          "**Status Update**\nAll good.\n**Standby:**\nNothing here.\n**Conclusion**\nBye.".data)
      = true ∧
    clean_text_pipeline
        "**Status Update**\nAll good.\n**Standby:**\nNothing here.\n**Conclusion**\nBye.".data
      ≠ "**Status Update**\nAll good.".data := by
  constructor
  · decide
  · decide

/-- C1 (amended): truncation is not keyed on the truncation marker of the
original text.  The section filter runs first, and the pipeline then drops
everything from the first loose standby occurrence remaining in the
FILTERED text (none: nothing is dropped): a marker header's own title is
blocked, so the filter usually removes the marker itself and a post-marker
section with a non-blocked title can survive, while a loose `**standby`
surviving inside a kept body still truncates everything after it.  The
claim's concrete example holds: input
`"**Status Update**\nAll good.\n**Standby:**\nNothing here."` yields
`"**Status Update**\nAll good."`. -/
theorem c1_truncation_after_filter :
    (∀ s : Str,
      (standbyFind (cut_intro_sections s) = none →
        clean_text_pipeline s = joinChunksStep (cut_intro_sections s)) ∧
      (∀ i, standbyFind (cut_intro_sections s) = some i →
        standbyMatchAt ((cut_intro_sections s).drop i) = true ∧
        (∀ j, j < i → standbyMatchAt ((cut_intro_sections s).drop j) = false) ∧
        clean_text_pipeline s = joinChunksStep (rstrip ((cut_intro_sections s).take i)))) ∧
    clean_text_pipeline "**Status Update**\nAll good.\n**Standby:**\nNothing here.".data
      = "**Status Update**\nAll good.".data := by
  constructor
  · intro s
    constructor
    · intro hn
      rw [clean_text_pipeline, cutoff_of_none _ hn]
    · intro i hi
      obtain ⟨h1, h2, h3⟩ := firstMatchFrom_some standbyMatchAt (cut_intro_sections s) 0 i hi
      refine ⟨by simpa using h2, ?_, ?_⟩
      · intro j hj
        have := h3 j (by omega)
        exact this
      · rw [clean_text_pipeline, cutoff_of_some _ i hi]
  · decide

/-- C1 (witness): the amended truncation theorem at an input whose kept
Intro body contains a loose `**standby` occurrence: after the filter it sits
at offset 19, and the pipeline truncates there — removing even the
non-blocked Conclusion section after it. -/
theorem c1_witness :
    standbyMatchAt ((cut_intro_sections
        "**Intro**\nBody has **standby leftover\nmore text\n**Standby:**\nx\n**Conclusion**\nBye.".data).drop 19)
      = true ∧
    clean_text_pipeline
        "**Intro**\nBody has **standby leftover\nmore text\n**Standby:**\nx\n**Conclusion**\nBye.".data
      = joinChunksStep (rstrip ((cut_intro_sections
        "**Intro**\nBody has **standby leftover\nmore text\n**Standby:**\nx\n**Conclusion**\nBye.".data).take 19)) := by
  have h := ((c1_truncation_after_filter.1
    "**Intro**\nBody has **standby leftover\nmore text\n**Standby:**\nx\n**Conclusion**\nBye.".data).2
    19 (by decide))
  exact ⟨h.1, h.2.2⟩

/-- C2 (counterexample): composing the four steps in the spec's order
Intro Cutter → Tail Cutter → Section Filter → Chunk Splitter/Joiner does NOT
reproduce the pipeline: on an input with a non-blocked section after the
Standby marker the two orders disagree. -/
theorem c2_counterexample :
    specOrderPipeline
        "**Status Update**\nAll good.\n**Standby:**\nNothing here.\n**Conclusion**\nBye.".data
      ≠ clean_text_pipeline
        "**Status Update**\nAll good.\n**Standby:**\nNothing here.\n**Conclusion**\nBye.".data := by
  decide

/-- C2 (amended): the pipeline is the sequential composition of the four
steps in the order Intro Cutter → Section Filter → Tail Cutter → Chunk
Splitter/Joiner (the section filter runs inside `cut_intro_sections`,
before the tail cut), each step receiving the previous step's output. -/
theorem c2_actual_order :
    ∀ s : Str,
      clean_text_pipeline s
        = joinChunksStep
            (cut_off_after_standby (sectionFilterStep (introCutStep (normalizeNewlines s)))) :=
  fun _ => rfl

/-- C3 (counterexample): the Tail Cutter's pattern has no closing-asterisk
requirement and no exact-title requirement, so a header whose title merely
starts with "standby" — here `**Standby Crew**` — does trigger truncation,
contrary to the claim. -/
theorem c3_counterexample :
    cut_off_after_standby "**Standby Crew** stays".data = [] ∧
    "**Standby Crew** stays".data ≠ ([] : Str) := by
  constructor
  · decide
  · decide

/-- C3 (amended): the Tail Cutter truncates exactly at the first position
matching the loose pattern two asterisks, optional whitespace, optional
"automation" plus whitespace, then "standby" (case-insensitive) — with no
requirement that a closing `**` follow or that the title be exactly
"standby"/"automation standby".  When such a position exists the text is cut
immediately before it with trailing whitespace removed; otherwise it passes
through unchanged. -/
theorem c3_tail_cutter_amended (s : Str) :
    (∀ i, standbyFind s = some i →
      standbyMatchAt (s.drop i) = true ∧
      (∀ j, j < i → standbyMatchAt (s.drop j) = false) ∧
      cut_off_after_standby s = rstrip (s.take i)) ∧
    (standbyFind s = none →
      (∀ j, standbyMatchAt (s.drop j) = false) ∧ cut_off_after_standby s = s) := by
  constructor
  · intro i hi
    obtain ⟨h1, h2, h3⟩ := firstMatchFrom_some standbyMatchAt s 0 i hi
    refine ⟨by simpa using h2, ?_, ?_⟩
    · intro j hj
      have := h3 j (by omega)
      exact this
    · unfold cut_off_after_standby
      rw [standbyFind] at hi
      unfold standbyFind
      rw [hi]
  · intro hn
    refine ⟨?_, ?_⟩
    · intro j
      exact firstMatchFrom_none standbyMatchAt s 0 hn j
    · apply cutoff_of_none
      exact hn

/-- C3 (witness): the amended tail-cutter theorem applied to the concrete
input "ab **standby" with its loose match at offset 3. -/
theorem c3_witness :
    standbyMatchAt ("ab **standby".data.drop 3) = true ∧
    cut_off_after_standby "ab **standby".data = rstrip ("ab **standby".data.take 3) := by
  have h := (c3_tail_cutter_amended "ab **standby".data).1 3 (by decide)
  exact ⟨h.1, h.2.2⟩

/-- C4 (counterexample): the Chunk Splitter/Joiner is not idempotent:
on "x****a**" the first pass yields "x**\n\n**a**", in which the inserted
blank line completes a fresh `**…**` occurrence at the chunk's trailing
asterisks, so a second pass splits again and yields "x\n\n**\n\n**a**". -/
theorem c4_counterexample :
    joinChunksStep (joinChunksStep "x****a**".data) ≠ joinChunksStep "x****a**".data := by
  decide

/-- C4 (amended): re-running the Chunk Splitter/Joiner on its own output
preserves the non-whitespace content exactly (J(J(s)) agrees with J(s) up to
whitespace); strict idempotence fails only through further whitespace
rearrangement. -/
theorem c4_joiner_amended (s : Str) :
    removeWs (joinChunksStep (joinChunksStep s)) = removeWs (joinChunksStep s) := by
  rw [removeWs_joinChunksStep]

/-- C5: the Section Filter discards a section exactly when its normalized
title (lowercased, runs of non-alphanumerics collapsed to one space,
trimmed) contains a blocked keyword as a substring, and keeps the other
sections verbatim (header line included), joining them and stripping
leading whitespace.  In particular `**Weekly Personnel Update**` normalizes
to "weekly personnel update", is blocked (it contains "personnel"), and its
section is dropped while a non-blocked `**Alpha**` section is kept
verbatim. -/
theorem c5_section_filter :
    (∀ t : Str,
      sectionFilterStep t
        = if (findHeaders t).isEmpty then lstrip t
          else lstrip (((headerBlocks t (findHeaders t)).filter
            (fun tb => !blockedTitle tb.1)).map Prod.snd).flatten) ∧
    normTitle "Weekly Personnel Update".data = "weekly personnel update".data ∧
    blockedTitle "Weekly Personnel Update".data = true ∧
    blockedTitle "Alpha".data = false ∧
    sectionFilterStep "**Alpha**\na\n**Weekly Personnel Update**\nx".data
      = "**Alpha**\na\n".data := by
  refine ⟨?_, by decide, by decide, by decide, by decide⟩
  intro t
  rw [sectionFilterStep, filterBlocks_eq]

/-- C6: the Intro Cutter cuts at the first scanned header whose
stripped-lowercased title is not in the exempt set {to, from, date,
subject}: if no such header exists the text is unchanged, and if the first
one is `h` then every earlier header is exempt, `h` is not, and the output
is the text from `h`'s start offset on (left-stripped).  The concrete
`**To:**/**From:**/**Date:**/**Subject:**` document accordingly starts its
output at `**Status Update**`. -/
theorem c6_intro_cutter :
    (∀ s : Str,
      ((findHeaders (normalizeNewlines s)).find? (fun h2 => !exemptTitle h2.title) = none →
        introCutStep (normalizeNewlines s) = normalizeNewlines s) ∧
      (∀ h : Hdr,
        (findHeaders (normalizeNewlines s)).find? (fun h2 => !exemptTitle h2.title) = some h →
          exemptTitle h.title = false ∧
          (∃ pre post, findHeaders (normalizeNewlines s) = pre ++ h :: post ∧
            ∀ h2 ∈ pre, exemptTitle h2.title = true) ∧
          introCutStep (normalizeNewlines s)
            = lstrip ((normalizeNewlines s).drop h.start))) ∧
    introCutStep (normalizeNewlines
        "**To:**\n**From:**\n**Date:**\n**Subject:**\n**Status Update**\nBody".data)
      = "**Status Update**\nBody".data := by
  constructor
  · intro s
    constructor
    · intro hn
      unfold introCutStep firstRealStart
      rw [hn]
      rfl
    · intro h hf
      obtain ⟨hp, pre, post, hsplit, hpre⟩ := find?_split _ _ h hf
      refine ⟨?_, ⟨pre, post, hsplit, ?_⟩, ?_⟩
      · cases hx : exemptTitle h.title
        · rfl
        · rw [hx] at hp; simp at hp
      · intro h2 h2m
        have := hpre h2 h2m
        cases hx : exemptTitle h2.title
        · rw [hx] at this; simp at this
        · rfl
      · unfold introCutStep firstRealStart
        rw [hf]
        rfl
  · decide

/-- C6 (witness): the intro-cutter theorem applied to the concrete
To/From/Date/Subject document, whose first non-exempt header is
`**Status Update**` at offset 41. -/
theorem c6_witness :
    introCutStep (normalizeNewlines
        "**To:**\n**From:**\n**Date:**\n**Subject:**\n**Status Update**\nBody".data)
      = lstrip ((normalizeNewlines
        "**To:**\n**From:**\n**Date:**\n**Subject:**\n**Status Update**\nBody".data).drop 41) := by
  have h := ((c6_intro_cutter.1
    "**To:**\n**From:**\n**Date:**\n**Subject:**\n**Status Update**\nBody".data).2
    { start := 41, title := "Status Update".data, hlen := 17 } (by decide))
  exact h.2.2

/-- C7 (counterexample): with sections A = Status Update, B = Safety
(blocked), C = Conclusion in that order, the output is NOT "A then C with
whitespace changes only between the survivors": the chunk splitter matches
at A's closing asterisks (the `[^*]+?` of the split pattern crosses the
asterisk-free body into C's opening `**`) and splices a blank line INSIDE
surviving section A, so the text of A — even its header `**Status Update**`
— does not occur in the output. -/
theorem c7_counterexample :
    clean_text_pipeline
        "**Status Update**\nAll good.\n**Safety**\nWear hats.\n**Conclusion**\nBye.".data
      = "**Status Update\n\n**\nAll good.\n\n**Conclusion**\nBye.".data ∧
    isSubstr "**Status Update**".data
        (clean_text_pipeline
          "**Status Update**\nAll good.\n**Safety**\nWear hats.\n**Conclusion**\nBye.".data)
      = false ∧
    isSubstr "Wear hats".data
        (clean_text_pipeline
          "**Status Update**\nAll good.\n**Safety**\nWear hats.\n**Conclusion**\nBye.".data)
      = false := by
  refine ⟨by decide, by decide, by decide⟩

/-- C7 (amended): the pipeline never reorders sections, but the whitespace
rearrangement of the chunk-join step can also act INSIDE a surviving
section, not only between survivors.  What holds is: the chunk-join step
changes only whitespace (the non-whitespace content is untouched); the tail
cut only removes a suffix (the result is a prefix, i.e. a `take`, of the
section-filter output); and the section-filter output is the left-strip of
the concatenation of a subsequence (`Sublist`) of the section blocks of the
intro-cut text, in their original order (or the left-strip of the whole
text when it has no headers).  Hence the survivors' non-whitespace content
appears in the output in the original order. -/
theorem c7_order_preservation (s : Str) :
    removeWs (clean_text_pipeline s)
      = removeWs (cut_off_after_standby (cut_intro_sections s)) ∧
    (∃ k, cut_off_after_standby (cut_intro_sections s) = (cut_intro_sections s).take k) ∧
    (∃ kept : List Str,
      kept.Sublist ((headerBlocks (introCutStep (normalizeNewlines s))
        (findHeaders (introCutStep (normalizeNewlines s)))).map Prod.snd) ∧
      (cut_intro_sections s = lstrip kept.flatten ∨
        (findHeaders (introCutStep (normalizeNewlines s)) = [] ∧ kept = [] ∧
          cut_intro_sections s = lstrip (introCutStep (normalizeNewlines s))))) := by
  refine ⟨?_, ?_, ?_⟩
  · rw [clean_text_pipeline]
    exact removeWs_joinChunksStep _
  · unfold cut_off_after_standby
    cases hsf : standbyFind (cut_intro_sections s) with
    | none => exact ⟨(cut_intro_sections s).length, (List.take_length _).symm⟩
    | some i =>
      obtain ⟨k, hk⟩ := rstrip_take ((cut_intro_sections s).take i)
      refine ⟨min k i, ?_⟩
      show rstrip ((cut_intro_sections s).take i) = (cut_intro_sections s).take (min k i)
      rw [hk, List.take_take]
  · cases he : (findHeaders (introCutStep (normalizeNewlines s))).isEmpty
    · refine ⟨filterBlocks (introCutStep (normalizeNewlines s))
        (findHeaders (introCutStep (normalizeNewlines s))), filterBlocks_sublist _ _, Or.inl ?_⟩
      rw [cut_intro_sections, sectionFilterStep, he]
      rfl
    · refine ⟨[], List.nil_sublist _, Or.inr ⟨List.isEmpty_iff.mp he, rfl, ?_⟩⟩
      rw [cut_intro_sections, sectionFilterStep, he]
      rfl

/-- C8 (counterexample): an input with no section header (the header pattern
forbids newlines inside the title, so "x **a\nb** y" has none) is still NOT
a pass-through: the chunk-split pattern `\*\*[^*]+?\*\*` does allow newlines,
so the pipeline inserts a blank line and returns "x\n\n**a\nb** y". -/
theorem c8_counterexample :
    findHeaders "x **a\nb** y".data = [] ∧
    clean_text_pipeline "x **a\nb** y".data = "x\n\n**a\nb** y".data ∧
    clean_text_pipeline "x **a\nb** y".data ≠ strip "x **a\nb** y".data := by
  refine ⟨by decide, by decide, by decide⟩

/-- C8 (amended): for every input containing no two consecutive asterisks —
so no header, no truncation marker and no chunk-split occurrence can match —
the full pipeline returns the input unchanged except for newline
normalization and whitespace trimming. -/
theorem c8_pass_through (s : Str) (h : hasDoubleStar s = false) :
    clean_text_pipeline s = strip (normalizeNewlines s) := by
  have hn : hasDoubleStar (normalizeNewlines s) = false := hasDoubleStar_normalize s h
  have hfh : findHeaders (normalizeNewlines s) = [] :=
    findHeadersAux_nil (normalizeNewlines s).length (normalizeNewlines s) 0 hn
  have h1 : cut_intro_sections s = lstrip (normalizeNewlines s) := by
    rw [cut_intro_sections, introCut_no_headers _ hfh, sectionFilter_no_headers _ hfh]
  have hl : hasDoubleStar (lstrip (normalizeNewlines s)) = false :=
    hasDoubleStar_dropWhile isWs _ hn
  have h2 : cut_off_after_standby (lstrip (normalizeNewlines s))
      = lstrip (normalizeNewlines s) :=
    cutoff_of_none _ (firstMatchFrom_standby_nil _ 0 hl)
  have h3 : splitPoints (lstrip (normalizeNewlines s)) = [] := splitPointsAux_nil _ 0 hl
  rw [clean_text_pipeline, h1, h2, joinChunksStep, chunks_of_no_points _ h3]
  cases he : (strip (lstrip (normalizeNewlines s))).isEmpty
  · rw [if_neg (by intro hc; cases hc)]
    show strip (lstrip (normalizeNewlines s)) = strip (normalizeNewlines s)
    exact strip_lstrip _
  · rw [if_pos rfl]
    show ([] : Str) = strip (normalizeNewlines s)
    rw [← strip_lstrip (normalizeNewlines s)]
    exact (List.isEmpty_iff.mp he).symm

/-- C8 (witness): the pass-through theorem at the claim's own example
"plain text, no bold headers". -/
theorem c8_witness :
    hasDoubleStar "plain text, no bold headers".data = false ∧
    clean_text_pipeline "plain text, no bold headers".data
      = strip (normalizeNewlines "plain text, no bold headers".data) :=
  ⟨by decide, c8_pass_through "plain text, no bold headers".data (by decide)⟩

/-- C9: the pipeline is total — it is a function returning a result for
every input — and each step degrades to a pass-through when its pattern is
absent: no header means the intro cut and section filter only left-strip,
no standby match means the tail cut returns its input unchanged, and no
chunk-split point means the text comes through as a single stripped chunk. -/
theorem c9_totality (s : Str) :
    (∃ t : Str, clean_text_pipeline s = t) ∧
    (findHeaders (normalizeNewlines s) = [] →
      cut_intro_sections s = lstrip (normalizeNewlines s)) ∧
    (∀ u : Str, standbyFind u = none → cut_off_after_standby u = u) ∧
    (∀ u : Str, splitPoints u = [] →
      split_into_chunks u = if (strip u).isEmpty then [] else [strip u]) := by
  refine ⟨⟨clean_text_pipeline s, rfl⟩, ?_, ?_, ?_⟩
  · intro hfh
    rw [cut_intro_sections, introCut_no_headers _ hfh, sectionFilter_no_headers _ hfh]
  · intro u hu
    exact cutoff_of_none u hu
  · intro u hu
    exact chunks_of_no_points u hu

/-- C9 (witness): the totality theorem at the concrete input "x", which has
no header, no standby match and no split point. -/
theorem c9_witness :
    cut_intro_sections "x".data = lstrip (normalizeNewlines "x".data) ∧
    cut_off_after_standby "x".data = "x".data ∧
    split_into_chunks "x".data
      = if (strip "x".data).isEmpty then [] else [strip "x".data] := by
  have h := c9_totality "x".data
  exact ⟨h.2.1 (by decide), h.2.2.1 "x".data (by decide), h.2.2.2 "x".data (by decide)⟩

/-- C10: for every input the pipeline output contains no carriage return
(all line endings are normalized to LF before any matching, and the only
characters the pipeline introduces are LF separators), and the output has
no leading and no trailing whitespace. -/
theorem c10_output_invariant (s : Str) :
    (∀ c ∈ clean_text_pipeline s, c ≠ '\r') ∧
    lstrip (clean_text_pipeline s) = clean_text_pipeline s ∧
    rstrip (clean_text_pipeline s) = clean_text_pipeline s := by
  refine ⟨?_, ?_, ?_⟩
  · intro c hc
    rcases mem_clean_pipeline hc with h | rfl
    · exact normalize_no_cr c s h
    · decide
  · rw [clean_text_pipeline, joinChunksStep]
    apply lstrip_joinWithBlank
    intro l hl
    exact ⟨(chunk_trimmed hl).1, (chunk_trimmed hl).2.2⟩
  · rw [clean_text_pipeline, joinChunksStep]
    apply rstrip_joinWithBlank
    intro l hl
    exact ⟨(chunk_trimmed hl).2.1, (chunk_trimmed hl).2.2⟩

/-- C10 (witness): the output invariant applied to a concrete input with
CRLF line endings and surrounding whitespace. -/
theorem c10_witness :
    lstrip (clean_text_pipeline " a\r\nb ".data) = clean_text_pipeline " a\r\nb ".data ∧
    rstrip (clean_text_pipeline " a\r\nb ".data) = clean_text_pipeline " a\r\nb ".data ∧
    ('\r' ∈ clean_text_pipeline " a\r\nb ".data → False) := by
  have h := c10_output_invariant " a\r\nb ".data
  exact ⟨h.2.1, h.2.2, fun hc => (h.1 '\r' hc) rfl⟩
